import Mathlib

/-!
Shallow embedding of the RoseLauncher backend (`src/src-tauri/src/main.rs`).

Modelling conventions:
* Rust `String` is Lean `String`; `str::trim` is modelled at the character
  level (`trimChars`) using `Char.isWhitespace` for the whitespace class.
* `DateTime<Utc>` timestamps are modelled as `Int` (ordered instants);
  `Utc::now()` and `Uuid::new_v4()` are explicit parameters of the
  operations that call them.
* The filesystem seen by the size scanner is a map from path strings to an
  optional `FsNode` (`none` = the path does not exist).  `walkdir` with
  `follow_links(true)` is modelled on the resolved tree.
* The persisted library document is modelled by its parsed content, a
  `List GameEntry`; each command returns the list of saves it performed.
* Errors are the literal strings the Rust functions produce.
-/

namespace RoseLauncher

/-! ### Character-level string helpers (model of `str::trim` and `split(',')`) -/

/-- Right trim: drop trailing whitespace characters of a character list. -/
def rtrimChars (l : List Char) : List Char :=
  (l.reverse.dropWhile Char.isWhitespace).reverse

/-- Model of Rust `str::trim` on the character list of a string. -/
def trimChars (l : List Char) : List Char :=
  rtrimChars (l.dropWhile Char.isWhitespace)

/-- Model of Rust `str::trim` returning a `String`. -/
def strTrim (s : String) : String :=
  String.mk (trimChars s.data)

/-- Model of Rust `str::split(',')`: splits a character list at every comma,
keeping empty pieces (as Rust's `split` does). -/
def splitOnComma : List Char → List (List Char)
  | [] => [[]]
  | c :: rest =>
    if c = ',' then [] :: splitOnComma rest
    else
      match splitOnComma rest with
      | [] => [[c]]
      | piece :: pieces => (c :: piece) :: pieces

/-! ### Tag normalization (`normalize_tags`, main.rs 449-464) -/

/-- Executable lexicographic comparison of character lists, the model of
Rust's `Ord` on `String` (byte order; on valid UTF-8, byte order and
code-point order agree). -/
def charListLe : List Char → List Char → Bool
  | [], _ => true
  | _ :: _, [] => false
  | x :: xs, y :: ys =>
    if x < y then true else if y < x then false else charListLe xs ys

theorem charListLe_iff_not_lex : ∀ a b : List Char,
    charListLe a b = true ↔ ¬ List.Lex (· < ·) b a
  | [], b => by
    constructor
    · intro _ h
      cases h
    · intro _
      rfl
  | x :: xs, [] => by
    constructor
    · intro h
      simp [charListLe] at h
    · intro h
      exact absurd List.Lex.nil h
  | x :: xs, y :: ys => by
    by_cases hxy : x < y
    · constructor
      · intro _ h
        cases h with
        | rel h => exact absurd hxy (asymm h)
        | cons h => exact absurd hxy (lt_irrefl _)
      · intro _
        simp [charListLe, hxy]
    · by_cases hyx : y < x
      · constructor
        · intro h
          simp [charListLe, hxy, hyx] at h
        · intro h
          exact absurd (List.Lex.rel hyx) h
      · have hxy' : x = y := le_antisymm (le_of_not_lt hyx) (le_of_not_lt hxy)
        subst hxy'
        have hrec := charListLe_iff_not_lex xs ys
        constructor
        · intro h hlex
          have hxs : charListLe xs ys = true := by
            simpa [charListLe, hxy] using h
          cases hlex with
          | rel h' => exact hyx h'
          | cons h' => exact hrec.mp hxs h'
        · intro h
          have hxs : charListLe xs ys = true :=
            hrec.mpr fun hlex => h (List.Lex.cons hlex)
          simp [charListLe, hxy, hxs]

theorem charListLe_iff_le (a b : String) : charListLe a.data b.data = true ↔ a ≤ b := by
  rw [charListLe_iff_not_lex, String.le_iff_toList_le]
  show ¬ (b.toList < a.toList) ↔ a.toList ≤ b.toList
  exact not_lt

/-- An executable decision procedure for the string order, agreeing with the
standard `≤` on `String`. -/
def strLeDec : DecidableRel (fun a b : String => a ≤ b) := fun a b =>
  decidable_of_iff (charListLe a.data b.data = true) (charListLe_iff_le a b)

/-- Model of Rust `Vec::sort` on a vector of strings: a stable sort by the
string order. -/
def sortStrings (l : List String) : List String :=
  @List.insertionSort String (· ≤ ·) strLeDec l

theorem sortStrings_sorted (l : List String) : (sortStrings l).Sorted (· ≤ ·) :=
  @List.sorted_insertionSort String (fun a b => a ≤ b) strLeDec _ _ l

theorem mem_sortStrings {s : String} {l : List String} :
    s ∈ sortStrings l ↔ s ∈ l :=
  (@List.perm_insertionSort String (fun a b => a ≤ b) strLeDec l).mem_iff

/-- Consecutive deduplication, the model of Rust `Vec::dedup`. -/
def dedupConsec : List String → List String
  | [] => []
  | [a] => [a]
  | a :: b :: rest =>
    if a = b then dedupConsec (b :: rest) else a :: dedupConsec (b :: rest)

theorem mem_dedupConsec : ∀ (l : List String) (s : String), s ∈ dedupConsec l ↔ s ∈ l
  | [], s => Iff.rfl
  | [a], s => Iff.rfl
  | a :: b :: rest, s => by
    have hrec := mem_dedupConsec (b :: rest) s
    by_cases heq : a = b
    · subst heq
      have hd : dedupConsec (a :: a :: rest) = dedupConsec (a :: rest) := by
        simp [dedupConsec]
      rw [hd, hrec]
      simp only [List.mem_cons]
      tauto
    · simp only [dedupConsec, if_neg heq, List.mem_cons]
      rw [hrec]
      simp only [List.mem_cons]

theorem sorted_lt_dedupConsec : ∀ l : List String,
    l.Sorted (· ≤ ·) → (dedupConsec l).Sorted (· < ·)
  | [] => fun _ => List.sorted_nil
  | [a] => fun _ => List.sorted_singleton a
  | a :: b :: rest => fun h => by
    have hab : a ≤ b := (List.sorted_cons.mp h).1 b (by simp)
    have htail : (b :: rest).Sorted (· ≤ ·) := (List.sorted_cons.mp h).2
    have ih := sorted_lt_dedupConsec (b :: rest) htail
    by_cases heq : a = b
    · simpa [dedupConsec, if_pos heq] using ih
    · simp only [dedupConsec, if_neg heq]
      refine List.sorted_cons.mpr ⟨?_, ih⟩
      intro c hc
      have hc' : c ∈ b :: rest := (mem_dedupConsec _ c).mp hc
      have hbc : b ≤ c := by
        rcases List.mem_cons.mp hc' with h' | h'
        · exact h' ▸ le_refl b
        · exact (List.sorted_cons.mp htail).1 c h'
      exact lt_of_lt_of_le (lt_of_le_of_ne hab heq) hbc

/-- The pieces collected by the loop of `normalize_tags` (main.rs 452-459):
every input tag split on commas, each piece trimmed, empty pieces dropped. -/
def tag_pieces (tags : List String) : List String :=
  tags.flatMap fun tag =>
    (splitOnComma tag.data).filterMap fun v =>
      let trimmed := trimChars v
      if trimmed = [] then none else some (String.mk trimmed)

/-- Model of `normalize_tags` (main.rs 449-464): split every input on commas,
trim each piece, drop empty pieces, then sort and deduplicate. -/
def normalize_tags (tags : List String) : List String :=
  dedupConsec (sortStrings (tag_pieces tags))

theorem dropWhile_exists_not (p : Char → Bool) :
    ∀ l : List Char, l.dropWhile p ≠ [] → ∃ c ∈ l.dropWhile p, p c = false
  | [] => by simp
  | a :: t => by
    by_cases h : p a = true
    · simp only [List.dropWhile_cons, h, if_true]
      exact dropWhile_exists_not p t
    · have hpa : p a = false := by simpa using h
      simp only [List.dropWhile_cons, hpa, Bool.false_eq_true, if_false]
      intro _
      exact ⟨a, by simp, hpa⟩

theorem rtrimChars_exists_not {l : List Char} (h : rtrimChars l ≠ []) :
    ∃ c ∈ rtrimChars l, c.isWhitespace = false := by
  unfold rtrimChars at *
  have h2 : l.reverse.dropWhile Char.isWhitespace ≠ [] := by
    intro he
    apply h
    rw [he]
    rfl
  obtain ⟨c, hc, hcw⟩ := dropWhile_exists_not _ _ h2
  exact ⟨c, List.mem_reverse.mpr hc, hcw⟩

theorem trimChars_exists_not {l : List Char} (h : trimChars l ≠ []) :
    ∃ c ∈ trimChars l, c.isWhitespace = false :=
  rtrimChars_exists_not h

theorem tag_pieces_spec {tags : List String} :
    ∀ s ∈ tag_pieces tags, s ≠ "" ∧ ∃ c ∈ s.data, c.isWhitespace = false := by
  intro s hs
  rw [tag_pieces] at hs
  rw [List.mem_flatMap] at hs
  obtain ⟨tag, _, hs⟩ := hs
  rw [List.mem_filterMap] at hs
  obtain ⟨v, _, heq⟩ := hs
  by_cases hv : trimChars v = []
  · simp [hv] at heq
  · simp only [hv, if_neg, if_false] at heq
    have hsome := Option.some.inj heq
    have hdata : s.data = trimChars v := by
      rw [← hsome]
    constructor
    · intro habs
      apply hv
      rw [← hdata, habs]
    · rw [hdata]
      exact trimChars_exists_not hv

/-! ### Data model (`GameEntry`, `GamePayload`, main.rs 18-72) -/

/-- Model of `InstallStatus` (main.rs 20-25). -/
inductive InstallStatus where
  | NotInstalled
  | Downloading
  | Installed
  | Archived
deriving DecidableEq, Repr

/-- Model of `GameEntry` (main.rs 35-53): one tracked package. -/
structure GameEntry where
  id : String
  title : String
  version : Option String
  archive_path : Option String
  install_path : Option String
  executable_path : Option String
  repacker : Option String
  tags : List String
  status : InstallStatus
  notes : Option String
  checksum : Option String
  color : Option String
  size_bytes : Option Nat
  added_at : Int
  updated_at : Int
deriving DecidableEq, Repr

/-- Model of `GamePayload` (main.rs 57-72): the external update payload. -/
structure GamePayload where
  title : String
  version : Option String
  archive_path : Option String
  install_path : Option String
  executable_path : Option String
  repacker : Option String
  tags : List String
  status : InstallStatus
  notes : Option String
  checksum : Option String
  color : Option String
  size_override : Option Nat
deriving DecidableEq, Repr

/-! ### Size scanner (`compute_path_size`, `scan_path_size`, main.rs 429-447, 181-187) -/

/-- A node of the (link-resolved) filesystem tree: a regular file with a byte
length, a directory with its entries, or any other path type (device files,
sockets, ...). -/
inductive FsNode where
  | file (len : Nat)
  | dir (entries : List FsNode)
  | special

/-- Total size of the regular files in a tree, the model of the `WalkDir`
loop in `compute_path_size`: only entries whose file type is a regular file
contribute; directories are recursed into; other node types contribute 0. -/
def walkSize : FsNode → Nat
  | .file len => len
  | .dir entries => (entries.attach.map fun e => walkSize e.val).sum
  | .special => 0
decreasing_by
  have := List.sizeOf_lt_of_mem e.property
  simp only [FsNode.dir.sizeOf_spec]
  omega

/-- A filesystem: maps a path string to its node, `none` when the path does
not exist. -/
abbrev Fs : Type := String → Option FsNode

/-- Model of `compute_path_size` (main.rs 429-447): a regular file yields its
length, a directory yields the recursive walk total, anything else (including
a nonexistent path, for which both `is_file` and `is_dir` are false) yields
the error `"Unsupported path type"`. -/
def compute_path_size (fs : Fs) (path : String) : Except String Nat :=
  match fs path with
  | some (.file len) => .ok len
  | some (.dir entries) => .ok (walkSize (.dir entries))
  | some .special => .error "Unsupported path type"
  | none => .error "Unsupported path type"

/-- Model of the `scan_path_size` command (main.rs 181-187): reject a
nonexistent path first, then delegate to `compute_path_size`. -/
def scan_path_size (fs : Fs) (path : String) : Except String Nat :=
  if (fs path).isSome = false then
    .error ("Path does not exist: " ++ path)
  else
    compute_path_size fs path

/-! ### Entry builder (`non_empty`, `game_from_payload`, main.rs 312-391) -/

/-- Model of `non_empty` (main.rs 384-391): trim, and coerce an empty result
to `none`. -/
def non_empty (value : String) : Option String :=
  let trimmed := strTrim value
  if trimmed = "" then none else some trimmed

/-- Model of `game_from_payload` (main.rs 312-382).  `fresh` stands for the
`Uuid::new_v4()` drawn for the zero-value entry of the create case and `now`
for `Utc::now()`; `fs` is the filesystem consulted by the best-effort size
enrichment via `compute_path_size`. -/
def game_from_payload (fs : Fs) (payload : GamePayload) (existing : Option GameEntry)
    (now : Int) (fresh : String) : GameEntry :=
  let base : GameEntry := existing.getD
    { id := fresh
      title := ""
      version := none
      archive_path := none
      install_path := none
      executable_path := none
      repacker := none
      tags := []
      status := .NotInstalled
      notes := none
      checksum := none
      color := none
      size_bytes := none
      added_at := now
      updated_at := now }
  let trimmedTitle := strTrim payload.title
  let archive_path := payload.archive_path.bind non_empty
  let install_path := payload.install_path.bind non_empty
  let sizeCandidate : Option Nat :=
    payload.size_override.orElse fun _ =>
      (archive_path.orElse fun _ => install_path).bind fun p =>
        (compute_path_size fs p).toOption
  { base with
    title := if trimmedTitle = "" then "Untitled" else trimmedTitle
    version := payload.version.bind non_empty
    archive_path := archive_path
    install_path := install_path
    executable_path := payload.executable_path.bind non_empty
    repacker := payload.repacker.bind non_empty
    tags := normalize_tags payload.tags
    status := payload.status
    notes := payload.notes.bind non_empty
    checksum := payload.checksum.bind non_empty
    color := payload.color.bind non_empty
    size_bytes := match sizeCandidate with
      | some size => some size
      | none => base.size_bytes }

/-! ### Record store commands (`add_game`, `update_game`, `remove_game`,
main.rs 117-165).  The persisted document is modelled by its parsed content
(`Library`); `read_library` returns it and each performed `write_library` is
recorded in `writes`, in order. -/

/-- The parsed content of the persisted library document. -/
abbrev Library : Type := List GameEntry

/-- Result of one command: its returned value (errors are the literal Rust
strings) together with the list of library states it saved, in order. -/
structure CmdResult (α : Type) where
  result : Except String α
  writes : List Library

/-- The persisted content after a command ran, starting from `initial`: the
last saved state, or `initial` when the command saved nothing. -/
def persisted_after (initial : Library) (r : CmdResult α) : Library :=
  r.writes.getLast?.getD initial

/-- Model of `add_game` (main.rs 117-129): build a fresh entry from the
payload, overwrite its id with a new uuid (`fresh2`) and both timestamps with
`now`, append it and save.  `fresh1` is the uuid drawn inside
`game_from_payload` (immediately overwritten, as in the source). -/
def add_game (fs : Fs) (lib : Library) (payload : GamePayload)
    (now : Int) (fresh1 fresh2 : String) : CmdResult GameEntry :=
  let entry0 := game_from_payload fs payload none now fresh1
  let entry := { entry0 with id := fresh2, added_at := now, updated_at := now }
  { result := .ok entry, writes := [lib ++ [entry]] }

/-- Replace the first entry whose id matches, the model of the
`iter_mut().find(..)` assignment in `update_game` (main.rs 144-146). -/
def replace_first (lib : Library) (id : String) (entry : GameEntry) : Library :=
  match lib with
  | [] => []
  | g :: rest =>
    if g.id = id then entry :: rest else g :: replace_first rest id entry

/-- Model of `update_game` (main.rs 131-151): find the first entry with the
requested id (error `"Game {id} not found"` when absent, nothing saved),
rebuild it from the payload with the existing entry as defaults, force the id
back and refresh `updated_at`, replace the first match in place, save. -/
def update_game (fs : Fs) (lib : Library) (id : String) (payload : GamePayload)
    (now : Int) : CmdResult GameEntry :=
  match (List.find? (fun g => g.id == id) lib : Option GameEntry) with
  | none => { result := .error ("Game " ++ id ++ " not found"), writes := [] }
  | some existing =>
    let rebuilt := game_from_payload fs payload (some existing) now ""
    let entry := { rebuilt with id := id, updated_at := now }
    { result := .ok entry, writes := [replace_first lib id entry] }

/-- Model of `remove_game` (main.rs 153-165): retain the entries whose id
differs; error `"Game {id} not found"` (nothing saved) when the length did
not shrink, otherwise save the retained list. -/
def remove_game (lib : Library) (id : String) : CmdResult Unit :=
  let remaining := List.filter (fun g => g.id != id) lib
  if remaining.length = (lib : List GameEntry).length then
    { result := .error ("Game " ++ id ++ " not found"), writes := [] }
  else
    { result := .ok (), writes := [remaining] }

/-! ### Download engine (`queue_download`, `download_file`, `infer_file_name`,
main.rs 189-310) -/

/-- The notifications a download job emits to the external sink. -/
inductive DlEvent where
  | progress (id file_name : String) (processed : Nat) (total : Option Nat)
  | complete (id file_name destination : String)
  | error (id file_name message : String)
deriving DecidableEq, Repr

/-- Outcome of one `response.read(&mut buffer)` call: `chunk n` delivers `n`
bytes (`n = 0` signals end of stream), `fail` is a read error. -/
inductive ReadResult where
  | chunk (n : Nat)
  | fail (message : String)
deriving DecidableEq, Repr

/-- The network-visible behaviour of one HTTP response: its status code, the
declared `Content-Length` if any, and the successive outcomes of the body
reads (the stream ends when the list is exhausted or a read returns 0). -/
structure HttpResponse where
  status : Nat
  content_length : Option Nat
  stream : List ReadResult
deriving Repr

/-- Model of `StatusCode::is_success`: a 2xx status. -/
def is_success (status : Nat) : Bool :=
  200 ≤ status && status < 300

/-- The read/write loop of `download_file` (main.rs 278-295): after each
nonempty chunk is written the cumulative progress is emitted; a zero read
ends the loop; a read error aborts with that error, keeping the events
already emitted. -/
def stream_events (id file_name : String) (total : Option Nat) :
    List ReadResult → Nat → List DlEvent × Except String Unit
  | [], _ => ([], .ok ())
  | .fail msg :: _, _ => ([], .error msg)
  | .chunk n :: rest, downloaded =>
    if n = 0 then ([], .ok ())
    else
      let d := downloaded + n
      let next := stream_events id file_name total rest d
      (.progress id file_name d total :: next.1, next.2)

/-- Model of `download_file` (main.rs 255-300): a non-2xx status fails the
job with `"Download failed with status {status}"` before any event; otherwise
the body is streamed with `stream_events`.  Client construction, file
creation, writes and the final flush are modelled as succeeding. -/
def download_file (id file_name : String) (resp : HttpResponse) :
    List DlEvent × Except String Unit :=
  if is_success resp.status = false then
    ([], .error ("Download failed with status " ++ toString resp.status))
  else
    stream_events id file_name resp.content_length resp.stream 0

/-- Model of the spawned thread body of `queue_download` (main.rs 226-246):
run `download_file`, then emit exactly one terminal notification — an error
event carrying the failure message, or a completion event. -/
def job_events (id file_name destination : String) (resp : HttpResponse) :
    List DlEvent :=
  let run := download_file id file_name resp
  match run.2 with
  | .error msg => run.1 ++ [.error id file_name msg]
  | .ok _ => run.1 ++ [.complete id file_name destination]

/-- Whether an event is terminal (completion or error). -/
def DlEvent.isTerminal : DlEvent → Bool
  | .progress _ _ _ _ => false
  | .complete _ _ _ => true
  | .error _ _ _ => true

/-- Whether an event is a progress notification. -/
def DlEvent.isProgress : DlEvent → Bool
  | .progress _ _ _ _ => true
  | _ => false

/-- Whether an event is a completion notification. -/
def DlEvent.isComplete : DlEvent → Bool
  | .complete _ _ _ => true
  | _ => false

/-- Whether an event is an error notification. -/
def DlEvent.isError : DlEvent → Bool
  | .error _ _ _ => true
  | _ => false

/-- The fixed chunk size `DOWNLOAD_BUFFER` (main.rs 16): 128 KiB. -/
def DOWNLOAD_BUFFER : Nat := 1024 * 128

/-! ### Destination resolution (`queue_download`, `infer_file_name`,
main.rs 189-253, 302-310) -/

/-- The outcome of `url::Url::parse` as far as `infer_file_name` consumes it:
`none` models a parse failure, otherwise the optional list of path segments
(`none` inside models a cannot-be-a-base URL). -/
structure UrlModel where
  path_segments : Option (List String)

/-- A URL parser oracle: the behaviour of the external `url` crate. -/
abbrev UrlParser : Type := String → Option UrlModel

/-- Model of `infer_file_name` (main.rs 302-310): the last path segment of
the parsed URL, or `none` when parsing fails, the URL has no segments, or the
last segment is empty. -/
def infer_file_name (parse : UrlParser) (url : String) : Option String :=
  (parse url).bind fun parsed =>
    parsed.path_segments.bind fun segs =>
      segs.getLast?.bind fun last =>
        if last = "" then none else some last

/-- Split a character list at every occurrence of `sep`, keeping empty
pieces. -/
def splitOnChar (sep : Char) : List Char → List (List Char)
  | [] => [[]]
  | c :: rest =>
    if c = sep then [] :: splitOnChar sep rest
    else
      match splitOnChar sep rest with
      | [] => [[c]]
      | piece :: pieces => (c :: piece) :: pieces

/-- Model of `Path::file_name` on a path string: the last normal component
(empty and `"."` components are skipped, as Rust's component parser does);
`none` when there is none or the last component is `".."`. -/
def path_file_name (p : String) : Option String :=
  let comps := ((splitOnChar '/' p.data).map String.mk).filter
    fun c => c != "" && c != "."
  comps.getLast?.bind fun last => if last = ".." then none else some last

/-- Model of `Path::extension(..).is_some()`: the file name exists and
contains a `'.'` beyond its first character. -/
def has_extension (p : String) : Bool :=
  match path_file_name p with
  | none => false
  | some f => (f.data.drop 1).contains '.'

/-- Model of `Path::join` for a relative child name: append with a single
separator. -/
def path_join (p child : String) : String :=
  if p.data.getLast? = some '/' then p ++ child else p ++ "/" ++ child

/-- Whether a path names an existing directory (`Path::is_dir`). -/
def is_dir (fs : Fs) (p : String) : Bool :=
  match fs p with
  | some (.dir _) => true
  | _ => false

/-- Model of `DownloadQueuedPayload` (main.rs 76-80). -/
structure DownloadQueuedPayload where
  id : String
  file_name : String
  destination : String
deriving DecidableEq, Repr

/-- Model of the synchronous part of `queue_download` (main.rs 189-253):
validate the url and destination hint, resolve the display file name
(explicit non-blank name, else inferred from the URL, else
`"download-{id}"`), append it to the hint when the hint is an existing
directory or has no extension, and return the queued descriptor.  `id` is
the drawn uuid; parent-directory creation is modelled as succeeding. -/
def queue_download (fs : Fs) (parse : UrlParser) (url destination : String)
    (file_name : Option String) (id : String) :
    Except String DownloadQueuedPayload :=
  if strTrim url = "" then .error "URL cannot be empty"
  else if strTrim destination = "" then .error "Destination cannot be empty"
  else
    let inferred_name :=
      ((file_name.filter fun n => !(strTrim n = "")).orElse fun _ =>
        infer_file_name parse url).getD ("download-" ++ id)
    let target_path :=
      if is_dir fs destination || !(has_extension destination) then
        path_join destination inferred_name
      else destination
    .ok { id := id, file_name := inferred_name, destination := target_path }

/-! ### Persistence of the document (`write_library`, main.rs 409-417) -/

/-- Crash model of `std::fs::write` (called by `write_library`): the file is
created/truncated in place and the payload is then written front to back, so
the observable on-disk contents are the prior content followed by every
prefix of the new content.  There is no temporary file and no rename. -/
def fs_write_states (old new : String) : List String :=
  old :: (List.range (new.data.length + 1)).map fun k => String.mk (new.data.take k)

/-- Model of `write_library` (main.rs 409-417) at the crash-state level:
serialize the collection (`serialize` stands for
`serde_json::to_string_pretty`) and hand it to `fs::write` over the prior
document content. -/
def write_library_states (serialize : Library → String) (lib : Library)
    (old : String) : List String :=
  fs_write_states old (serialize lib)

/-! ### Concrete fixtures used by the witness theorems -/

/-- A concrete payload used to instantiate the store operations. -/
def samplePayload : GamePayload :=
  { title := "  Foo  "
    version := some "1.0"
    archive_path := none
    install_path := none
    executable_path := none
    repacker := none
    tags := ["b,  a", "a"]
    status := .Installed
    notes := none
    checksum := none
    color := none
    size_override := none }

/-- A concrete filesystem with a single empty directory at `"dl"`. -/
def sampleFs : Fs := fun p => if p = "dl" then some (.dir []) else none

/-- A concrete URL parser mapping every URL to the path segments
`["setup.exe"]`. -/
def sampleParse : UrlParser := fun _ => some { path_segments := some ["setup.exe"] }

/-- A concrete entry with id `"g1"`. -/
def sampleEntry : GameEntry :=
  { id := "g1"
    title := "Foo"
    version := none
    archive_path := none
    install_path := none
    executable_path := none
    repacker := none
    tags := []
    status := .NotInstalled
    notes := none
    checksum := none
    color := none
    size_bytes := none
    added_at := 5
    updated_at := 5 }

/-! ### The claims -/

/-- C3: `normalize_tags` splits each input string on commas, trims each
piece, discards empty pieces, and returns the remaining pieces sorted
ascending with duplicates removed: the result is `≤`-sorted and duplicate
free, its members are exactly the collected pieces (hence no empty and no
whitespace-only strings), and `["b,  a", "a"]` normalizes to `["a", "b"]`. -/
theorem C3_normalize_tags_sorted_dedup (tags : List String) :
    (normalize_tags tags).Sorted (· ≤ ·) ∧
    (normalize_tags tags).Nodup ∧
    (∀ s, s ∈ normalize_tags tags ↔ s ∈ tag_pieces tags) ∧
    (∀ s ∈ normalize_tags tags, s ≠ "" ∧ ∃ c ∈ s.data, c.isWhitespace = false) ∧
    normalize_tags ["b,  a", "a"] = ["a", "b"] := by
  have hmem : ∀ s, s ∈ normalize_tags tags ↔ s ∈ tag_pieces tags := by
    intro s
    simp only [normalize_tags]
    rw [mem_dedupConsec, mem_sortStrings]
  have hlt : (normalize_tags tags).Sorted (· < ·) :=
    sorted_lt_dedupConsec _ (sortStrings_sorted _)
  refine ⟨hlt.le_of_lt, hlt.nodup, hmem, ?_, by decide⟩
  intro s hs
  exact tag_pieces_spec s ((hmem s).mp hs)

theorem C3_witness :
    ("a" ∈ normalize_tags ["b,  a", "a"]) ∧
    ("a" ≠ "" ∧ ∃ c ∈ ("a" : String).data, c.isWhitespace = false) :=
  ⟨by decide, (C3_normalize_tags_sorted_dedup ["b,  a", "a"]).2.2.2.1 "a" (by decide)⟩

/-- C6: scanning the size of a path that does not exist fails with the
path-not-found error, and in particular not with the unsupported-path-type
error. -/
theorem C6_scan_size_missing_path (fs : Fs) (path : String) (h : fs path = none) :
    scan_path_size fs path = .error ("Path does not exist: " ++ path) ∧
    scan_path_size fs path ≠ .error "Unsupported path type" := by
  have hres : scan_path_size fs path = .error ("Path does not exist: " ++ path) := by
    simp [scan_path_size, h]
  refine ⟨hres, ?_⟩
  rw [hres]
  intro heq
  have hmsg : ("Path does not exist: " ++ path) = "Unsupported path type" :=
    Except.error.inj heq
  have hhead : ("Path does not exist: " ++ path).data.head? = some 'P' := by
    rw [String.data_append]
    rfl
  rw [hmsg] at hhead
  exact absurd hhead (by decide)

theorem C6_witness :
    scan_path_size (fun _ => none) "missing"
      = .error ("Path does not exist: " ++ "missing") ∧
    scan_path_size (fun _ => none) "missing" ≠ .error "Unsupported path type" :=
  C6_scan_size_missing_path (fun _ => none) "missing" rfl

/-- C1: `update_game` on an id that no entry carries fails with the
not-found error, performs no save, and the persisted content after the call
is the same collection that a load before the call returned. -/
theorem C1_update_unknown_id (fs : Fs) (lib : Library) (id : String)
    (payload : GamePayload) (now : Int)
    (h : ∀ g ∈ lib, g.id ≠ id) :
    (update_game fs lib id payload now).result = .error ("Game " ++ id ++ " not found") ∧
    (update_game fs lib id payload now).writes = [] ∧
    persisted_after lib (update_game fs lib id payload now) = lib := by
  have hfind : List.find? (fun g => g.id == id) lib = none := by
    rw [List.find?_eq_none]
    intro g hg
    simpa using h g hg
  refine ⟨?_, ?_, ?_⟩ <;> simp [update_game, hfind, persisted_after]

theorem C1_witness :
    (update_game (fun _ => none) [sampleEntry] "x" samplePayload 9).result
      = .error ("Game " ++ "x" ++ " not found") ∧
    (update_game (fun _ => none) [sampleEntry] "x" samplePayload 9).writes = [] ∧
    persisted_after [sampleEntry]
      (update_game (fun _ => none) [sampleEntry] "x" samplePayload 9) = [sampleEntry] :=
  C1_update_unknown_id (fun _ => none) [sampleEntry] "x" samplePayload 9 (by decide)

/-- C7: `add_game` appends exactly one new entry (the single save is the old
collection with the built entry appended, and the returned entry is the
appended one); its id is the freshly drawn uuid, its `added_at` equals its
`updated_at`, and its title is `"Untitled"` when the payload title trims to
empty and the trimmed payload title otherwise. -/
theorem C7_add_game_appends (fs : Fs) (lib : Library) (payload : GamePayload)
    (now : Int) (fresh1 fresh2 : String) :
    ∀ e, (add_game fs lib payload now fresh1 fresh2).result = .ok e →
      (add_game fs lib payload now fresh1 fresh2).writes = [lib ++ [e]] ∧
      e.id = fresh2 ∧
      e.added_at = now ∧
      e.updated_at = now ∧
      e.title = (if strTrim payload.title = "" then "Untitled" else strTrim payload.title) ∧
      ((∀ g ∈ lib, g.id ≠ fresh2) → ∀ g ∈ lib, g.id ≠ e.id) := by
  intro e he
  have he2 : ({ game_from_payload fs payload none now fresh1 with
      id := fresh2, added_at := now, updated_at := now } : GameEntry) = e := by
    simpa [add_game] using he
  subst he2
  refine ⟨by simp [add_game], rfl, rfl, rfl, ?_, ?_⟩
  · simp [game_from_payload]
  · intro hfresh g hg
    simpa using hfresh g hg

theorem C7_witness :
    (add_game (fun _ => none) [] samplePayload 3 "u1" "u2").result
      = .ok { game_from_payload (fun _ => none) samplePayload none 3 "u1" with
          id := "u2", added_at := 3, updated_at := 3 } ∧
    (add_game (fun _ => none) [] samplePayload 3 "u1" "u2").writes
      = [[{ game_from_payload (fun _ => none) samplePayload none 3 "u1" with
          id := "u2", added_at := 3, updated_at := 3 }]] ∧
    ({ game_from_payload (fun _ => none) samplePayload none 3 "u1" with
        id := "u2", added_at := 3, updated_at := 3 } : GameEntry).title = "Foo" := by
  have h := C7_add_game_appends (fun _ => none) [] samplePayload 3 "u1" "u2"
    { game_from_payload (fun _ => none) samplePayload none 3 "u1" with
        id := "u2", added_at := 3, updated_at := 3 } rfl
  refine ⟨rfl, ?_, ?_⟩
  · simpa using h.1
  · rw [h.2.2.2.2.1]
    decide

/-- C9: the create path sets `added_at` and `updated_at` to the same instant
(so `updated_at ≥ added_at`) and assigns the freshly drawn id; a successful
`update_game` keeps the existing entry's id and `added_at`, sets `updated_at`
to the current time, and therefore preserves `updated_at ≥ added_at` whenever
the clock did not run backwards since creation. -/
theorem C9_identity_and_timestamps (fs : Fs) (lib : Library) (id : String)
    (payload : GamePayload) (now : Int) (fresh1 fresh2 : String) :
    (∀ e, (add_game fs lib payload now fresh1 fresh2).result = .ok e →
      e.id = fresh2 ∧ e.added_at = e.updated_at ∧ e.added_at ≤ e.updated_at) ∧
    (∀ existing, List.find? (fun g => g.id == id) lib = some existing →
      ∀ e, (update_game fs lib id payload now).result = .ok e →
        e.id = id ∧ e.id = existing.id ∧ e.added_at = existing.added_at ∧
        e.updated_at = now ∧
        (existing.added_at ≤ now → e.added_at ≤ e.updated_at)) := by
  constructor
  · intro e he
    have he2 : ({ game_from_payload fs payload none now fresh1 with
        id := fresh2, added_at := now, updated_at := now } : GameEntry) = e := by
      simpa [add_game] using he
    subst he2
    exact ⟨rfl, rfl, le_refl _⟩
  · intro existing hfind e he
    have hid : existing.id = id := by
      simpa using List.find?_some hfind
    have he2 : ({ game_from_payload fs payload (some existing) now "" with
        id := id, updated_at := now } : GameEntry) = e := by
      simpa [update_game, hfind] using he
    subst he2
    refine ⟨rfl, hid.symm, ?_, rfl, ?_⟩
    · simp [game_from_payload]
    · intro hle
      simpa [game_from_payload] using hle

theorem C9_witness :
    ((add_game (fun _ => none) [] samplePayload 9 "u1" "u2").result
      = .ok { game_from_payload (fun _ => none) samplePayload none 9 "u1" with
          id := "u2", added_at := 9, updated_at := 9 }) ∧
    ({ game_from_payload (fun _ => none) samplePayload none 9 "u1" with
        id := "u2", added_at := 9, updated_at := 9 } : GameEntry).added_at
      = ({ game_from_payload (fun _ => none) samplePayload none 9 "u1" with
        id := "u2", added_at := 9, updated_at := 9 } : GameEntry).updated_at ∧
    (List.find? (fun g => g.id == "g1") [sampleEntry] = some sampleEntry) ∧
    (∀ e, (update_game (fun _ => none) [sampleEntry] "g1" samplePayload 9).result = .ok e →
      e.added_at = sampleEntry.added_at ∧ e.updated_at = 9) := by
  have h := C9_identity_and_timestamps (fun _ => none) [sampleEntry] "g1"
    samplePayload 9 "u1" "u2"
  refine ⟨rfl, ?_, by decide, ?_⟩
  · exact (h.1 _ rfl).2.1
  · intro e he
    have h2 := h.2 sampleEntry (by decide) e he
    exact ⟨h2.2.2.1, h2.2.2.2.1⟩

theorem countP_id_one : ∀ (lib : Library) (id : String),
    (lib.map GameEntry.id).Nodup →
    ∀ g, g ∈ lib → g.id = id → List.countP (fun x => x.id == id) lib = 1 := by
  intro lib id
  induction lib with
  | nil =>
    intro _ g hg _
    cases hg
  | cons a t ih =>
    intro hnodup g hg hgid
    rw [List.map_cons] at hnodup
    have hnd := List.nodup_cons.mp hnodup
    rcases List.mem_cons.mp hg with hga | hgt
    · have haid : a.id = id := by
        rw [← hga]
        exact hgid
      rw [List.countP_cons_of_pos (fun x => x.id == id) t (by simpa using haid)]
      have hzero : List.countP (fun x => x.id == id) t = 0 := by
        rw [List.countP_eq_zero]
        intro x hx
        simp only [beq_iff_eq]
        intro hxid
        apply hnd.1
        rw [haid, ← hxid]
        exact List.mem_map_of_mem _ hx
      rw [hzero]
    · have ha : ¬ ((fun x => x.id == id) a = true) := by
        simp only [beq_iff_eq]
        intro haid
        apply hnd.1
        rw [haid, ← hgid]
        exact List.mem_map_of_mem _ hgt
      rw [List.countP_cons_of_neg (fun x => x.id == id) t ha]
      exact ih hnd.2 g hgt hgid

/-- C8: `remove_game` removes by id match: on an unmatched id it fails with
the not-found error and saves nothing; on a matched id it saves exactly the
entries whose id differs (all matches removed), so when ids are unique the
collection shrinks by exactly one, and a second removal of the same id fails
with the not-found error. -/
theorem C8_remove_game_by_id (lib : Library) (id : String) :
    ((∀ g ∈ lib, g.id ≠ id) →
      (remove_game lib id).result = .error ("Game " ++ id ++ " not found") ∧
      (remove_game lib id).writes = []) ∧
    ((∃ g ∈ lib, g.id = id) →
      (remove_game lib id).result = .ok () ∧
      (remove_game lib id).writes = [lib.filter (fun g => g.id != id)] ∧
      (∀ g ∈ lib.filter (fun g => g.id != id), g.id ≠ id) ∧
      (remove_game (lib.filter (fun g => g.id != id)) id).result
        = .error ("Game " ++ id ++ " not found")) ∧
    ((lib.map GameEntry.id).Nodup → (∃ g ∈ lib, g.id = id) →
      (lib.filter (fun g => g.id != id)).length + 1 = lib.length) := by
  have hmemfilter : ∀ g ∈ lib.filter (fun g => g.id != id), g.id ≠ id := by
    intro g hg
    have := (List.mem_filter.mp hg).2
    simpa [bne_iff_ne] using this
  refine ⟨?_, ?_, ?_⟩
  · intro h
    have hkeep : lib.filter (fun g => g.id != id) = lib := by
      apply List.filter_eq_self.mpr
      intro g hg
      simpa [bne_iff_ne] using h g hg
    constructor <;> simp [remove_game, hkeep]
  · intro h
    obtain ⟨g, hg, hgid⟩ := h
    have hlt : (lib.filter (fun g => g.id != id)).length < lib.length := by
      apply List.length_filter_lt_length_iff_exists.mpr
      exact ⟨g, hg, by simp [hgid]⟩
    have hne : ¬ ((lib.filter (fun g => g.id != id)).length = lib.length) :=
      Nat.ne_of_lt hlt
    refine ⟨by simp [remove_game, hne], by simp [remove_game, hne], hmemfilter, ?_⟩
    have hkeep2 : (lib.filter (fun g => g.id != id)).filter (fun g => g.id != id)
        = lib.filter (fun g => g.id != id) := by
      apply List.filter_eq_self.mpr
      intro g hg
      simpa [bne_iff_ne] using hmemfilter g hg
    simp [remove_game, hkeep2]
  · intro hnodup h
    obtain ⟨g, hg, hgid⟩ := h
    have hsplit := List.length_eq_length_filter_add (l := lib) (fun x => x.id == id)
    have hcnt : (lib.filter (fun x => x.id == id)).length = 1 := by
      rw [← List.countP_eq_length_filter]
      exact countP_id_one lib id hnodup g hg hgid
    have hsame : lib.filter (fun x => !(x.id == id)) = lib.filter (fun x => x.id != id) := rfl
    rw [hcnt, hsame] at hsplit
    omega

theorem C8_witness :
    ((remove_game [sampleEntry] "g1").result = .ok () ∧
      (remove_game [sampleEntry] "g1").writes = [[]]) ∧
    (remove_game ([sampleEntry].filter (fun g => g.id != "g1")) "g1").result
      = .error ("Game " ++ "g1" ++ " not found") ∧
    ([sampleEntry].filter (fun g => g.id != "g1")).length + 1 = [sampleEntry].length := by
  have h := C8_remove_game_by_id [sampleEntry] "g1"
  have hex : ∃ g ∈ [sampleEntry], g.id = "g1" := ⟨sampleEntry, by decide, by decide⟩
  have h2 := h.2.1 hex
  refine ⟨⟨h2.1, ?_⟩, h2.2.2.2, h.2.2 (by decide) hex⟩
  rw [h2.2.1]
  decide

theorem replace_first_eq_set : ∀ (lib : Library) (id : String) (e : GameEntry),
    replace_first lib id e = lib.set (lib.findIdx fun g => g.id == id) e
  | [], id, e => rfl
  | g :: rest, id, e => by
    rw [List.findIdx_cons]
    by_cases hid : g.id = id
    · simp [replace_first, hid]
    · have hbeq : (g.id == id) = false := by
        simpa using hid
      simp only [replace_first, if_neg hid, hbeq, cond_false]
      rw [replace_first_eq_set rest id e]
      rfl

/-- C10: a successful `update_game` saves the collection with only the first
entry whose id matches replaced (same length, every other position unchanged,
the matching position holding the rebuilt entry), and `add_game` saves the
collection with the new entry appended at the end, every existing position
unchanged. -/
theorem C10_frame (fs : Fs) (lib : Library) (id : String) (payload : GamePayload)
    (now : Int) (fresh1 fresh2 : String) :
    (∀ e, (add_game fs lib payload now fresh1 fresh2).result = .ok e →
      (add_game fs lib payload now fresh1 fresh2).writes = [lib ++ [e]] ∧
      (∀ j, j < lib.length → (lib ++ [e])[j]? = lib[j]?) ∧
      (lib ++ [e])[lib.length]? = some e) ∧
    (∀ existing, List.find? (fun g => g.id == id) lib = some existing →
      ∀ e, (update_game fs lib id payload now).result = .ok e →
        (update_game fs lib id payload now).writes
          = [lib.set (lib.findIdx fun g => g.id == id) e] ∧
        (lib.set (lib.findIdx fun g => g.id == id) e).length = lib.length ∧
        (∀ j, j ≠ (lib.findIdx fun g => g.id == id) →
          (lib.set (lib.findIdx fun g => g.id == id) e)[j]? = lib[j]?) ∧
        (lib.findIdx fun g => g.id == id) < lib.length ∧
        (lib.set (lib.findIdx fun g => g.id == id) e)[(lib.findIdx fun g => g.id == id)]?
          = some e) := by
  constructor
  · intro e he
    have hwrites : (add_game fs lib payload now fresh1 fresh2).writes
        = [lib ++ [{ game_from_payload fs payload none now fresh1 with
            id := fresh2, added_at := now, updated_at := now }]] := by
      simp [add_game]
    have he2 : ({ game_from_payload fs payload none now fresh1 with
        id := fresh2, added_at := now, updated_at := now } : GameEntry) = e := by
      simpa [add_game] using he
    refine ⟨by rw [hwrites, he2], ?_, ?_⟩
    · intro j hj
      exact List.getElem?_append_left hj
    · rw [List.getElem?_append_right (le_refl _)]
      simp
  · intro existing hfind e he
    have hidx : (lib.findIdx fun g => g.id == id) < lib.length := by
      apply List.findIdx_lt_length_of_exists
      have hp := List.find?_some hfind
      exact ⟨existing, List.mem_of_find?_eq_some hfind, hp⟩
    have hwrites : (update_game fs lib id payload now).writes
        = [replace_first lib id ({ game_from_payload fs payload (some existing) now "" with
            id := id, updated_at := now })] := by
      simp [update_game, hfind]
    have he2 : ({ game_from_payload fs payload (some existing) now "" with
        id := id, updated_at := now } : GameEntry) = e := by
      simpa [update_game, hfind] using he
    rw [he2] at hwrites
    refine ⟨by rw [hwrites, replace_first_eq_set], List.length_set lib _ e, ?_, hidx, ?_⟩
    · intro j hj
      exact List.getElem?_set_ne (Ne.symm hj)
    · exact List.getElem?_set_eq_of_lt e hidx

theorem C10_witness :
    (List.find? (fun g => g.id == "g1") [sampleEntry] = some sampleEntry) ∧
    (∀ e, (update_game (fun _ => none) [sampleEntry] "g1" samplePayload 9).result = .ok e →
      (update_game (fun _ => none) [sampleEntry] "g1" samplePayload 9).writes
        = [[sampleEntry].set ([sampleEntry].findIdx fun g => g.id == "g1") e] ∧
      ([sampleEntry].findIdx fun g => g.id == "g1") < [sampleEntry].length) := by
  have h := C10_frame (fun _ => none) [sampleEntry] "g1" samplePayload 9 "u1" "u2"
  refine ⟨by decide, ?_⟩
  intro e he
  have h2 := h.2 sampleEntry (by decide) e he
  exact ⟨h2.1, h2.2.2.2.1⟩

/-- The progress notifications of a fully delivered body: one event per
chunk, carrying the cumulative byte count. -/
def progress_trace (id file_name : String) (total : Option Nat) :
    List Nat → Nat → List DlEvent
  | [], _ => []
  | n :: rest, acc =>
    .progress id file_name (acc + n) total
      :: progress_trace id file_name total rest (acc + n)

theorem stream_events_all_chunks (id fn : String) (total : Option Nat) :
    ∀ (chunks : List Nat) (acc : Nat), (∀ n ∈ chunks, 0 < n) →
      stream_events id fn total (chunks.map ReadResult.chunk) acc
        = (progress_trace id fn total chunks acc, .ok ()) := by
  intro chunks
  induction chunks with
  | nil =>
    intro acc _
    rfl
  | cons n rest ih =>
    intro acc hpos
    have hn : ¬ n = 0 := Nat.pos_iff_ne_zero.mp (hpos n (by simp))
    simp only [List.map_cons, stream_events, if_neg hn]
    rw [ih (acc + n) fun m hm => hpos m (by simp [hm])]
    rfl

theorem stream_events_isProgress (id fn : String) (total : Option Nat) :
    ∀ (stream : List ReadResult) (acc : Nat),
      ∀ ev ∈ (stream_events id fn total stream acc).1, ev.isProgress = true := by
  intro stream
  induction stream with
  | nil =>
    intro acc ev hev
    cases hev
  | cons r rest ih =>
    intro acc ev hev
    cases r with
    | fail msg =>
      simp only [stream_events] at hev
      cases hev
    | chunk n =>
      by_cases hn : n = 0
      · simp only [stream_events, if_pos hn] at hev
        cases hev
      · simp only [stream_events, if_neg hn] at hev
        rcases List.mem_cons.mp hev with h | h
        · rw [h]
          rfl
        · exact ih (acc + n) ev h

theorem progress_trace_isProgress (id fn : String) (total : Option Nat) :
    ∀ (chunks : List Nat) (acc : Nat),
      ∀ ev ∈ progress_trace id fn total chunks acc, ev.isProgress = true := by
  intro chunks
  induction chunks with
  | nil =>
    intro acc ev hev
    cases hev
  | cons n rest ih =>
    intro acc ev hev
    rcases List.mem_cons.mp hev with h | h
    · rw [h]
      rfl
    · exact ih (acc + n) ev h

theorem progress_trace_length (id fn : String) (total : Option Nat) :
    ∀ (chunks : List Nat) (acc : Nat),
      (progress_trace id fn total chunks acc).length = chunks.length := by
  intro chunks
  induction chunks with
  | nil =>
    intro acc
    rfl
  | cons n rest ih =>
    intro acc
    simp [progress_trace, ih (acc + n)]

theorem isProgress_not_terminal {ev : DlEvent} (h : ev.isProgress = true) :
    ev.isTerminal = false ∧ ev.isComplete = false ∧ ev.isError = false := by
  cases ev <;> simp_all [DlEvent.isProgress, DlEvent.isTerminal, DlEvent.isComplete,
    DlEvent.isError]

/-- C2: every download job emits exactly one terminal notification.  A
successful (2xx) transfer whose body arrives in positive chunks emits the
per-chunk progress notifications followed by exactly one completion
notification and zero error notifications, with at least one progress
notification when the body exceeds the 128 KiB chunk size; a non-2xx
response emits exactly one error notification and zero completion and
progress notifications. -/
theorem C2_download_notifications (id fn dest : String) (resp : HttpResponse) :
    List.countP DlEvent.isTerminal (job_events id fn dest resp) = 1 ∧
    (is_success resp.status = true →
      ∀ chunks : List Nat, resp.stream = chunks.map ReadResult.chunk →
        (∀ n ∈ chunks, 0 < n) →
        job_events id fn dest resp
          = progress_trace id fn resp.content_length chunks 0
              ++ [.complete id fn dest] ∧
        List.countP DlEvent.isError (job_events id fn dest resp) = 0 ∧
        List.countP DlEvent.isComplete (job_events id fn dest resp) = 1 ∧
        (DOWNLOAD_BUFFER < chunks.sum →
          1 ≤ List.countP DlEvent.isProgress (job_events id fn dest resp))) ∧
    (is_success resp.status = false →
      job_events id fn dest resp
        = [.error id fn ("Download failed with status " ++ toString resp.status)] ∧
      List.countP DlEvent.isComplete (job_events id fn dest resp) = 0 ∧
      List.countP DlEvent.isError (job_events id fn dest resp) = 1 ∧
      List.countP DlEvent.isProgress (job_events id fn dest resp) = 0) := by
  have hprog : ∀ ev ∈ (download_file id fn resp).1, ev.isProgress = true := by
    intro ev hev
    by_cases hs : is_success resp.status = false
    · simp only [download_file, if_pos hs] at hev
      cases hev
    · simp only [download_file, if_neg hs] at hev
      exact stream_events_isProgress id fn resp.content_length resp.stream 0 ev hev
  have hterm0 : List.countP DlEvent.isTerminal (download_file id fn resp).1 = 0 :=
    List.countP_eq_zero.mpr fun ev hev => by
      rw [(isProgress_not_terminal (hprog ev hev)).1]
      simp
  refine ⟨?_, ?_, ?_⟩
  · rcases hr : (download_file id fn resp).2 with msg | u
    · have hjob : job_events id fn dest resp
          = (download_file id fn resp).1 ++ [.error id fn msg] := by
        simp [job_events, hr]
      rw [hjob, List.countP_append, hterm0]
      rfl
    · have hjob : job_events id fn dest resp
          = (download_file id fn resp).1 ++ [.complete id fn dest] := by
        simp [job_events, hr]
      rw [hjob, List.countP_append, hterm0]
      rfl
  · intro hs chunks hstream hpos
    have hdl : download_file id fn resp
        = (progress_trace id fn resp.content_length chunks 0, .ok ()) := by
      have : ¬ is_success resp.status = false := by
        rw [hs]
        simp
      simp only [download_file, if_neg this]
      rw [hstream]
      exact stream_events_all_chunks id fn resp.content_length chunks 0 hpos
    have hjob : job_events id fn dest resp
        = progress_trace id fn resp.content_length chunks 0
            ++ [.complete id fn dest] := by
      simp [job_events, hdl]
    have htraceprog := progress_trace_isProgress id fn resp.content_length chunks 0
    refine ⟨hjob, ?_, ?_, ?_⟩
    · rw [hjob, List.countP_append]
      have h0 : List.countP DlEvent.isError
          (progress_trace id fn resp.content_length chunks 0) = 0 :=
        List.countP_eq_zero.mpr fun ev hev => by
          rw [(isProgress_not_terminal (htraceprog ev hev)).2.2]
          simp
      rw [h0]
      rfl
    · rw [hjob, List.countP_append]
      have h0 : List.countP DlEvent.isComplete
          (progress_trace id fn resp.content_length chunks 0) = 0 :=
        List.countP_eq_zero.mpr fun ev hev => by
          rw [(isProgress_not_terminal (htraceprog ev hev)).2.1]
          simp
      rw [h0]
      rfl
    · intro hbig
      have hne : chunks ≠ [] := by
        intro habs
        rw [habs] at hbig
        simp [DOWNLOAD_BUFFER] at hbig
      rw [hjob, List.countP_append]
      have hall : List.countP DlEvent.isProgress
          (progress_trace id fn resp.content_length chunks 0)
          = (progress_trace id fn resp.content_length chunks 0).length :=
        List.countP_eq_length.mpr fun ev hev => htraceprog ev hev
      rw [hall, progress_trace_length]
      have : 0 < chunks.length := List.length_pos.mpr hne
      omega
  · intro hs
    have hdl : download_file id fn resp
        = ([], .error ("Download failed with status " ++ toString resp.status)) := by
      simp [download_file, hs]
    have hjob : job_events id fn dest resp
        = [.error id fn ("Download failed with status " ++ toString resp.status)] := by
      simp [job_events, hdl]
    rw [hjob]
    exact ⟨rfl, rfl, rfl, rfl⟩

theorem C2_witness :
    is_success 200 = true ∧
    job_events "j" "f" "d"
      { status := 200, content_length := some 200000,
        stream := [.chunk 131072, .chunk 68928] }
      = progress_trace "j" "f" (some 200000) [131072, 68928] 0
          ++ [.complete "j" "f" "d"] ∧
    1 ≤ List.countP DlEvent.isProgress
      (job_events "j" "f" "d"
        { status := 200, content_length := some 200000,
          stream := [.chunk 131072, .chunk 68928] }) ∧
    List.countP DlEvent.isTerminal
      (job_events "j" "f" "d"
        { status := 200, content_length := some 200000,
          stream := [.chunk 131072, .chunk 68928] }) = 1 := by
  have h := C2_download_notifications "j" "f" "d"
    { status := 200, content_length := some 200000,
      stream := [.chunk 131072, .chunk 68928] }
  have h2 := h.2.1 (by decide) [131072, 68928] rfl (by decide)
  exact ⟨by decide, h2.1, h2.2.2.2 (by decide), h.1⟩

/-- C5: for non-blank url and destination hint, the queued descriptor's file
name is resolved with priority explicit non-blank name, then the URL's final
path segment when non-empty, then `"download-{id}"`; and its destination is
the hint joined with that file name when the hint is an existing directory or
has no extension, and the hint verbatim otherwise. -/
theorem C5_queue_resolution (fs : Fs) (parse : UrlParser) (url destination : String)
    (file_name : Option String) (id : String)
    (hu : ¬ strTrim url = "") (hd : ¬ strTrim destination = "") :
    ∀ p, queue_download fs parse url destination file_name id = .ok p →
      p.id = id ∧
      (∀ n, file_name = some n → ¬ strTrim n = "" → p.file_name = n) ∧
      ((∀ n, file_name = some n → strTrim n = "") →
        (∀ s, infer_file_name parse url = some s → p.file_name = s) ∧
        (infer_file_name parse url = none → p.file_name = "download-" ++ id)) ∧
      ((is_dir fs destination = true ∨ has_extension destination = false) →
        p.destination = path_join destination p.file_name) ∧
      (is_dir fs destination = false → has_extension destination = true →
        p.destination = destination) := by
  intro p hp
  simp only [queue_download, if_neg hu, if_neg hd] at hp
  have hp2 := Except.ok.inj hp
  subst hp2
  have hname : ∀ n, file_name = some n → ¬ strTrim n = "" →
      ((file_name.filter fun n => !(strTrim n = "")).orElse fun _ =>
        infer_file_name parse url).getD ("download-" ++ id) = n := by
    intro n hn hnb
    rw [hn]
    simp [Option.filter, hnb]
  have hblankname : (∀ n, file_name = some n → strTrim n = "") →
      (file_name.filter fun n => !(strTrim n = "")) = none := by
    intro hblank
    cases hfn : file_name with
    | none => rfl
    | some n =>
      have := hblank n hfn
      simp [Option.filter, this]
  refine ⟨rfl, ?_, ?_, ?_, ?_⟩
  · intro n hn hnb
    show ((file_name.filter fun n => !(strTrim n = "")).orElse fun _ =>
      infer_file_name parse url).getD ("download-" ++ id) = n
    exact hname n hn hnb
  · intro hblank
    constructor
    · intro s hs
      show ((file_name.filter fun n => !(strTrim n = "")).orElse fun _ =>
        infer_file_name parse url).getD ("download-" ++ id) = s
      rw [hblankname hblank]
      simp [Option.orElse, hs]
    · intro hnone
      show ((file_name.filter fun n => !(strTrim n = "")).orElse fun _ =>
        infer_file_name parse url).getD ("download-" ++ id) = "download-" ++ id
      rw [hblankname hblank]
      simp [Option.orElse, hnone]
  · intro hcond
    have hcond2 : (is_dir fs destination || !(has_extension destination)) = true := by
      rcases hcond with h | h
      · simp [h]
      · simp [h]
    show (if is_dir fs destination || !(has_extension destination) then
      path_join destination _ else destination) = _
    rw [if_pos hcond2]
  · intro hdir hext
    have hcond2 : ¬ ((is_dir fs destination || !(has_extension destination)) = true) := by
      simp [hdir, hext]
    show (if is_dir fs destination || !(has_extension destination) then
      path_join destination _ else destination) = destination
    rw [if_neg hcond2]

theorem C5_witness :
    (¬ strTrim "http://x/setup.exe" = "") ∧
    (¬ strTrim "dl" = "") ∧
    queue_download sampleFs sampleParse "http://x/setup.exe" "dl" none "job1"
      = .ok { id := "job1", file_name := "setup.exe", destination := "dl/setup.exe" } ∧
    ({ id := "job1", file_name := "setup.exe", destination := "dl/setup.exe" }
        : DownloadQueuedPayload).destination
      = path_join "dl" ("setup.exe" : String) := by
  have h := C5_queue_resolution sampleFs sampleParse "http://x/setup.exe" "dl"
    none "job1" (by decide) (by decide)
    { id := "job1", file_name := "setup.exe", destination := "dl/setup.exe" }
    rfl
  refine ⟨by decide, by decide, rfl, ?_⟩
  have h4 := h.2.2.2.1 (Or.inl (by decide))
  exact h4

/-- C4 counterexample: writing the serialized document `"[ ]"` over the prior
document `"[]"` passes through the on-disk content `"["`, which is neither
the prior document nor the new one — a crash at that point leaves a
half-written document in place of the prior valid one, so `write_library`
does not use write-then-rename or an equivalent mechanism. -/
theorem C4_counterexample :
    ("[" ∈ write_library_states (fun _ => "[ ]") [] "[]") ∧
    "[" ≠ "[]" ∧ "[" ≠ "[ ]" := by
  decide

/-- C4 amended: `write_library` overwrites the backing document in place
(create/truncate, then sequential write of the serialized collection): the
final on-disk content is exactly the serialized document, and every
intermediate crash state is the prior content or a prefix — possibly strict —
of the new document. -/
theorem C4_write_library_in_place (serialize : Library → String) (lib : Library)
    (old : String) :
    (write_library_states serialize lib old).getLast? = some (serialize lib) ∧
    ∀ s ∈ write_library_states serialize lib old,
      s = old ∨ ∃ k, s = String.mk ((serialize lib).data.take k) := by
  constructor
  · show (old :: (List.range ((serialize lib).data.length + 1)).map
      (fun k => String.mk ((serialize lib).data.take k))).getLast? = some (serialize lib)
    rw [List.range_succ, List.map_append, List.map_singleton, ← List.cons_append,
      List.getLast?_concat, List.take_length]
  · intro s hs
    rcases List.mem_cons.mp hs with h | h
    · exact Or.inl h
    · right
      rw [List.mem_map] at h
      obtain ⟨k, _, hk⟩ := h
      exact ⟨k, hk.symm⟩

theorem C4_witness :
    ((write_library_states (fun _ => "[ ]") [] "[]").getLast? = some "[ ]") ∧
    ("[" = "[]" ∨ ∃ k, "[" = String.mk (("[ ]" : String).data.take k)) := by
  have h := C4_write_library_in_place (fun _ => "[ ]") [] "[]"
  exact ⟨h.1, h.2 "[" (by decide)⟩

end RoseLauncher
